import Mathlib

/-!
Verification development for a GEDCOM-to-JSON genealogy converter.

The Python source (`src/gedcom_parser.py`) is shallowly embedded below:
pure string/line processing becomes Lean functions over `String` /
`List Char`, Python dicts (which preserve insertion order and overwrite
values in place) become association lists with an order-preserving
insert, and the two line-scanning loops become explicit fold steps over
a state record.  Python truthiness on the relevant values (`None`,
empty strings, empty dicts) is modelled explicitly at each use site.
-/

namespace Gedcom

/-- ASCII whitespace set used by `str.strip()` / `int()` trimming
(the Unicode-only whitespace code points are not modelled). -/
def pyIsSpace (c : Char) : Bool :=
  c == ' ' || c == '\t' || c == '\n' || c == '\r' ||
  c == Char.ofNat 11 || c == Char.ofNat 12

/-- `str.strip()` on a list of characters. -/
def pyStripList (cs : List Char) : List Char :=
  ((cs.dropWhile pyIsSpace).reverse.dropWhile pyIsSpace).reverse

/-- Python `line.strip()`. -/
def pyStrip (s : String) : String :=
  String.mk (pyStripList s.data)

/-- Python `s.replace(c, '')` for a single character `c`: removes every
occurrence of `c`. -/
def removeChar (c : Char) (s : String) : String :=
  String.mk (s.data.filter (fun d => d ≠ c))

/-- Python `s.strip('/')`: drop leading and trailing occurrences of a
single character. -/
def pyStripCharList (c : Char) (cs : List Char) : List Char :=
  ((cs.dropWhile (fun d => d == c)).reverse.dropWhile (fun d => d == c)).reverse

/-- Split a character list at its first space, if any
(helper for Python `str.split(' ', maxsplit)`). -/
def splitAtSpace : List Char → Option (List Char × List Char)
  | [] => none
  | c :: cs =>
    if c = ' ' then some ([], cs)
    else (splitAtSpace cs).map (fun p => (c :: p.1, p.2))

/-- Python `s.split(' ', maxsplit)`: split on single space characters,
at most `maxsplit` times; the last chunk is the untouched remainder. -/
def pySplitSpaceMax : Nat → List Char → List (List Char)
  | 0, cs => [cs]
  | m + 1, cs =>
    match splitAtSpace cs with
    | none => [cs]
    | some (a, b) => a :: pySplitSpaceMax m b

/-- Full split on one character (Python `s.split('/')` has no maxsplit
in the name-normalization code path). -/
def splitAllOn (c : Char) : List Char → List (List Char)
  | [] => [[]]
  | d :: ds =>
    if d = c then [] :: splitAllOn c ds
    else
      match splitAllOn c ds with
      | [] => [[d]]
      | p :: ps => (d :: p) :: ps

/-- Digit run with single underscores allowed between digits, as accepted
by Python `int()` (first character must already be a digit). -/
def pyDigits (acc : Nat) : List Char → Option Nat
  | [] => some acc
  | c :: rest =>
    if c.isDigit then pyDigits (acc * 10 + (c.toNat - 48)) rest
    else if c = '_' then
      match rest with
      | [] => none
      | d :: rest2 =>
        if d.isDigit then pyDigits (acc * 10 + (d.toNat - 48)) rest2
        else none
    else none

/-- Python `int(s)` on decimal ASCII input: surrounding whitespace is
trimmed, one optional sign, then digits (underscores allowed between
digits); anything else raises `ValueError`, modelled as `none`.
Unicode digit classes are not modelled. -/
def pyParseInt (s : String) : Option Int :=
  let cs := pyStripList s.data
  let signed : Int × List Char :=
    match cs with
    | '+' :: r => (1, r)
    | '-' :: r => (-1, r)
    | r => (1, r)
  match signed.2 with
  | [] => none
  | c :: rest =>
    if c.isDigit then
      (pyDigits (c.toNat - 48) rest).map (fun n => signed.1 * (n : Int))
    else none

/-- Python `str.lower()` restricted to ASCII case mapping. -/
def pyLower (s : String) : String :=
  String.mk (s.data.map Char.toLower)

/-- Does the second list start with the first one? -/
def startsWithB : List Char → List Char → Bool
  | [], _ => true
  | _ :: _, [] => false
  | a :: as, b :: bs => a == b && startsWithB as bs

/-- Contiguous-sublist test (Python `needle in haystack` on strings). -/
def containsSubB (n : List Char) : List Char → Bool
  | [] => startsWithB n []
  | c :: t => startsWithB n (c :: t) || containsSubB n t

/-- Python `needle in haystack` for strings. -/
def pyInB (needle hay : String) : Bool :=
  containsSubB needle.data hay.data

/-- Python truthiness of `dict.get(key)` results: `None` and `''` are
falsy, every other string truthy. -/
def pyFalsy : Option String → Bool
  | none => true
  | some s => s == ""

/-- Python dicts keyed by strings, preserving insertion order. -/
abbrev StrMap (α : Type) := List (String × α)

/-- `d[k]` / `d.get(k)`. -/
def dictGet (k : String) : StrMap α → Option α
  | [] => none
  | (k2, v) :: rest => if k2 = k then some v else dictGet k rest

/-- `d[k] = v`: overwrite in place if the key exists (keeping its
position), otherwise append, exactly as CPython dicts do. -/
def dictInsert (k : String) (v : α) : StrMap α → StrMap α
  | [] => [(k, v)]
  | (k2, v2) :: rest =>
    if k2 = k then (k2, v) :: rest else (k2, v2) :: dictInsert k v rest

/-- `k in d`. -/
def dictMem (k : String) (m : StrMap α) : Bool :=
  (dictGet k m).isSome

/-- `d.get(k, default)`. -/
def dictGetD (k : String) (d : α) (m : StrMap α) : α :=
  (dictGet k m).getD d

/-- `d[k] = d.get(k, 0) + 1`. -/
def incKey (k : String) (m : StrMap Nat) : StrMap Nat :=
  dictInsert k (dictGetD k 0 m + 1) m

/-- Rewrite every value with a key-aware function, keeping keys and
order (models the resolver's in-place mutation of each record). -/
def mapVals (f : String → α → β) (m : StrMap α) : StrMap β :=
  m.map (fun kv => (kv.1, f kv.1 kv.2))

/-- A `birth` / `death` / `marriage` sub-dict: both keys are absent
until a corresponding line stores them. -/
structure EventRec where
  date : Option String
  place : Option String
deriving DecidableEq, Repr

/-- The dict built for each `INDI` record.  The derived fields
`parents` / `spouse` / `children` are added by the resolver and are
empty until then. -/
structure Individual where
  id : String
  name : String
  gender : String
  birth : EventRec
  death : EventRec
  occupation : String
  notes : List String
  families_as_child : List String
  families_as_spouse : List String
  media : List String
  parents : List String
  spouse : List String
  children : List String
deriving DecidableEq, Repr

/-- The dict built for each `FAM` record. -/
structure Family where
  id : String
  marriage : EventRec
  husband : String
  wife : String
  children : List String
  notes : List String
  divorced : Bool
deriving DecidableEq, Repr

/-- The per-line front of both extraction loops: `line = line.strip()`,
`if not line: continue`, `parts = line.split(' ', 2)`,
`if len(parts) < 2: continue`, `level = int(parts[0])` with a
`ValueError` skip.  Returns the parsed level together with the parts
list (`tag = parts[1]`, `value = parts[2] if len(parts) > 2 else ""`). -/
def tokenizeParts (line0 : String) : Option (Int × List String) :=
  let line := pyStrip line0
  if line = "" then none
  else
    let parts := (pySplitSpaceMax 2 line.data).map (fun cs => String.mk cs)
    if parts.length < 2 then none
    else
      match pyParseInt (parts.getD 0 "") with
      | none => none
      | some lvl => some (lvl, parts)

/-- The `(level, tag, value)` view of a tokenized line. -/
def tokenizeLTV (line : String) : Option (Int × String × String) :=
  (tokenizeParts line).map (fun x => (x.1, x.2.getD 1 "", x.2.getD 2 ""))

/-- Id extraction for `INDI` records:
`tag.replace('@', '').replace('I', '').replace('@', '')`. -/
def stripIndiId (s : String) : String :=
  removeChar '@' (removeChar 'I' (removeChar '@' s))

/-- Id extraction for `FAM` records:
`tag.replace('@', '').replace('F', '').replace('@', '')`. -/
def stripFamId (s : String) : String :=
  removeChar '@' (removeChar 'F' (removeChar '@' s))

/-- `value.replace('@', '').replace('F', '') if value else ''`
(used for `FAMC` / `FAMS` values). -/
def famRefId (value : String) : String :=
  if value = "" then "" else removeChar 'F' (removeChar '@' value)

/-- `value.replace('@', '').replace('I', '') if value else ''`
(used for `HUSB` / `WIFE` / `CHIL` values). -/
def indRefId (value : String) : String :=
  if value = "" then "" else removeChar 'I' (removeChar '@' value)

/-- `NAME` value clean-up: strip surrounding slashes; if internal
slashes remain, split on them, trim each segment, drop empty segments
and re-join with single spaces; otherwise use the value as-is. -/
def normalizeName (value : String) : String :=
  if value = "" then ""
  else
    let cleaned := pyStripCharList '/' value.data
    if cleaned.contains '/' then
      String.intercalate " "
        (((splitAllOn '/' cleaned).map
            (fun p => String.mk (pyStripList p))).filter (fun s => s ≠ ""))
    else String.mk cleaned

/-- The `current_section` flag of the individual loop. -/
inductive IndSection where
  | birth
  | death
  | media
  | notes
deriving DecidableEq, Repr

/-- Loop state of `_extract_individuals`: the committed map plus
`current_individual` (`none` = Python `None`), `current_record`
(`none` = the initial empty dict `{}`, which is falsy) and
`current_section`.  `curId` and `curRec` are always set together, so
`some` here coincides with a truthy `current_record`. -/
structure IndState where
  individuals : StrMap Individual
  curId : Option String
  curRec : Option Individual
  curSection : Option IndSection
deriving DecidableEq, Repr

def initIndState : IndState :=
  { individuals := [], curId := none, curRec := none, curSection := none }

/-- The fresh accumulator dict created at a record start. -/
def freshInd (pid : String) : Individual :=
  { id := pid, name := "", gender := "", birth := ⟨none, none⟩,
    death := ⟨none, none⟩, occupation := "", notes := [],
    families_as_child := [], families_as_spouse := [], media := [],
    parents := [], spouse := [], children := [] }

/-- `if current_individual and current_record: individuals[cur] = rec`:
the commit performed at each record boundary. -/
def commitInd (st : IndState) : StrMap Individual :=
  match st.curId, st.curRec with
  | some cid, some r =>
    if cid = "" then st.individuals else dictInsert cid r st.individuals
  | _, _ => st.individuals

/-- Start of a new individual record (level-0 line with value `INDI`). -/
def startInd (st : IndState) (tok : String) : IndState :=
  let pid := stripIndiId tok
  { individuals := commitInd st, curId := some pid,
    curRec := some (freshInd pid), curSection := none }

/-- Level-1 dispatch inside an individual record; returns the updated
record together with the (possibly updated) section flag. -/
def handleL1 (r : Individual) (sec : Option IndSection) (tag value : String) :
    Individual × Option IndSection :=
  if tag = "NAME" then ({ r with name := normalizeName value }, sec)
  else if tag = "SEX" then ({ r with gender := value }, sec)
  else if tag = "OCCU" then ({ r with occupation := value }, sec)
  else if tag = "BIRT" then (r, some .birth)
  else if tag = "DEAT" then (r, some .death)
  else if tag = "FAMC" then
    (if famRefId value = "" then r
     else { r with families_as_child := r.families_as_child ++ [famRefId value] }, sec)
  else if tag = "FAMS" then
    (if famRefId value = "" then r
     else { r with families_as_spouse := r.families_as_spouse ++ [famRefId value] }, sec)
  else if tag = "OBJE" then (r, some .media)
  else if tag = "NOTE" then
    ({ r with notes := r.notes ++ (if value = "" then [] else [value]) }, some .notes)
  else (r, sec)

/-- Level-2 dispatch inside an open section. -/
def handleL2 (r : Individual) (sec : IndSection) (tag value : String) : Individual :=
  match sec with
  | .birth =>
    if tag = "DATE" then { r with birth := { r.birth with date := some value } }
    else if tag = "PLAC" then { r with birth := { r.birth with place := some value } }
    else r
  | .death =>
    if tag = "DATE" then { r with death := { r.death with date := some value } }
    else if tag = "PLAC" then { r with death := { r.death with place := some value } }
    else r
  | .media =>
    if tag = "FILE" then { r with media := r.media ++ [value] } else r
  | .notes =>
    if tag = "CONT" || tag = "CONC" then
      { r with notes := r.notes ++ (if value = "" then [] else [value]) }
    else if tag = "NOTE" then
      { r with notes := r.notes ++ (if value = "" then [] else [value]) }
    else r

/-- One tokenized line of `_extract_individuals`.  The branch order is
the Python `if`/`elif` chain: record start first, then level-1 data
(guarded by a truthy `current_individual`), then level-2 data (further
guarded by a truthy `current_section`). -/
def stepIndiTok (st : IndState) (lvl : Int) (parts : List String) : IndState :=
  if lvl = 0 ∧ 3 ≤ parts.length ∧ parts.getD 2 "" = "INDI" then
    startInd st (parts.getD 1 "")
  else
    match st.curId, st.curRec with
    | some cid, some r =>
      if cid ≠ "" ∧ lvl = 1 then
        let pr := handleL1 r st.curSection (parts.getD 1 "") (parts.getD 2 "")
        { st with curRec := some pr.1, curSection := pr.2 }
      else if cid ≠ "" ∧ lvl = 2 then
        match st.curSection with
        | some sec =>
          { st with curRec := some (handleL2 r sec (parts.getD 1 "") (parts.getD 2 "")) }
        | none => st
      else st
    | _, _ => st

/-- One raw line of `_extract_individuals` (malformed lines are no-ops). -/
def stepIndi (st : IndState) (line : String) : IndState :=
  match tokenizeParts line with
  | none => st
  | some (lvl, parts) => stepIndiTok st lvl parts

/-- `_extract_individuals`: fold the loop over all lines, then save the
last open record. -/
def extractIndividuals (lines : List String) : StrMap Individual :=
  commitInd (lines.foldl stepIndi initIndState)

/-- Loop state of `_extract_families` (no section flag exists there). -/
structure FamState where
  families : StrMap Family
  curId : Option String
  curRec : Option Family
deriving DecidableEq, Repr

def initFamState : FamState :=
  { families := [], curId := none, curRec := none }

def freshFam (fid : String) : Family :=
  { id := fid, marriage := ⟨none, none⟩, husband := "", wife := "",
    children := [], notes := [], divorced := false }

def commitFam (st : FamState) : StrMap Family :=
  match st.curId, st.curRec with
  | some cid, some r =>
    if cid = "" then st.families else dictInsert cid r st.families
  | _, _ => st.families

def startFam (st : FamState) (tok : String) : FamState :=
  let fid := stripFamId tok
  { families := commitFam st, curId := some fid, curRec := some (freshFam fid) }

/-- Level-1 dispatch inside a family record (`MARR` is an explicit
no-op in the source). -/
def handleFamL1 (r : Family) (tag value : String) : Family :=
  if tag = "MARR" then r
  else if tag = "DIV" then { r with divorced := true }
  else if tag = "SEP" then { r with divorced := true }
  else if tag = "HUSB" then { r with husband := indRefId value }
  else if tag = "WIFE" then { r with wife := indRefId value }
  else if tag = "CHIL" then
    if indRefId value = "" then r
    else { r with children := r.children ++ [indRefId value] }
  else if tag = "NOTE" then
    { r with notes := r.notes ++ (if value = "" then [] else [value]) }
  else r

/-- Level-2 dispatch inside a family record: `DATE` / `PLAC` always
target the `marriage` dict (there is no family-level section state). -/
def handleFamL2 (r : Family) (tag value : String) : Family :=
  if tag = "DATE" then { r with marriage := { r.marriage with date := some value } }
  else if tag = "PLAC" then { r with marriage := { r.marriage with place := some value } }
  else r

def stepFamTok (st : FamState) (lvl : Int) (parts : List String) : FamState :=
  if lvl = 0 ∧ 3 ≤ parts.length ∧ parts.getD 2 "" = "FAM" then
    startFam st (parts.getD 1 "")
  else
    match st.curId, st.curRec with
    | some cid, some r =>
      if cid ≠ "" ∧ lvl = 1 then
        { st with curRec := some (handleFamL1 r (parts.getD 1 "") (parts.getD 2 "")) }
      else if cid ≠ "" ∧ lvl = 2 then
        { st with curRec := some (handleFamL2 r (parts.getD 1 "") (parts.getD 2 "")) }
      else st
    | _, _ => st

def stepFam (st : FamState) (line : String) : FamState :=
  match tokenizeParts line with
  | none => st
  | some (lvl, parts) => stepFamTok st lvl parts

def extractFamilies (lines : List String) : StrMap Family :=
  commitFam (lines.foldl stepFam initFamState)

/-- Parent-collection step for one `families_as_child` entry: a family
absent from the map contributes nothing, otherwise its truthy husband
and then its truthy wife are appended. -/
def parentStep (fams : StrMap Family) (acc : List String) (fid : String) :
    List String :=
  match dictGet fid fams with
  | none => acc
  | some fam =>
    let acc1 := if fam.husband ≠ "" then acc ++ [fam.husband] else acc
    if fam.wife ≠ "" then acc1 ++ [fam.wife] else acc1

/-- `_resolve_relationships`, per individual: walk `families_as_child`
to collect parents (husband then wife, each only when truthy), walk
`families_as_spouse` to collect the other spouse and all children,
then apply the final falsy-entry clean-up filters.  `indId` is the map
key the loop iterates with (`for ind_id, individual in ...`). -/
def resolveIndividual (fams : StrMap Family) (indId : String) (ind : Individual) :
    Individual :=
  let parents0 := ind.families_as_child.foldl (parentStep fams) []
  let sc := ind.families_as_spouse.foldl
    (fun (acc : List String × List String) fid =>
      match dictGet fid fams with
      | none => acc
      | some fam =>
        let sp :=
          if fam.husband = indId ∧ fam.wife ≠ "" then acc.1 ++ [fam.wife]
          else if fam.wife = indId ∧ fam.husband ≠ "" then acc.1 ++ [fam.husband]
          else acc.1
        (sp, acc.2 ++ fam.children))
    ([], [])
  { ind with
    parents := parents0.filter (fun p => p ≠ ""),
    spouse := sc.1.filter (fun s => s ≠ ""),
    children := sc.2.filter (fun c => c ≠ "") }

/-- The resolver pass mutates each individual in place; keys and order
are untouched. -/
def resolveRelationships (inds : StrMap Individual) (fams : StrMap Family) :
    StrMap Individual :=
  mapVals (fun k ind => resolveIndividual fams k ind) inds

/-- The `summary` dict.  The wall-clock `parsed_at` timestamp is not
modelled; `error` is the optional `'error'` key of the fallback path. -/
structure Summary where
  total_individuals : Nat
  total_families : Nat
  error : Option String
deriving DecidableEq, Repr

/-- The structure returned by `parse()`. -/
structure ParseOutput where
  individuals : StrMap Individual
  families : StrMap Family
  summary : Summary
deriving DecidableEq, Repr

/-- The successful pipeline body of `parse()` over an in-memory line
sequence: extract individuals, extract families, resolve, summarize. -/
def parseCore (lines : List String) : ParseOutput :=
  let inds := extractIndividuals lines
  let fams := extractFamilies lines
  let resolved := resolveRelationships inds fams
  { individuals := resolved, families := fams,
    summary := { total_individuals := resolved.length,
                 total_families := fams.length, error := none } }

/-- `parse()` around the read step: a failing `_read_file()` is caught
and replaced by `self.lines = []`, after which the pipeline proceeds
over zero lines. -/
def parse (readResult : Except String (List String)) : ParseOutput :=
  parseCore (match readResult with | .ok ls => ls | .error _ => [])

/-- The fallback value built by the top-level `except` branch of
`parse()`. -/
def parseFallback (e : String) : ParseOutput :=
  { individuals := [], families := [],
    summary := { total_individuals := 0, total_families := 0, error := some e } }

/-- The top-level `try`/`except` of `parse()`: a normally produced
output passes through, any uncaught exception from the sequence is
turned into the fallback output instead of propagating. -/
def parseTop (pipeline : Except String ParseOutput) : ParseOutput :=
  match pipeline with
  | .ok o => o
  | .error e => parseFallback e

/-- `find_person`: case-insensitive substring match on names, in map
iteration (= insertion) order. -/
def findPerson (inds : StrMap Individual) (nameQuery : String) : List Individual :=
  (inds.filter (fun kv => pyInB (pyLower nameQuery) (pyLower kv.2.name))).map
    (fun kv => kv.2)

/-- `search_by_location`: case-insensitive substring match on the birth
place or the death place (each defaulting to `''` when absent). -/
def searchByLocation (inds : StrMap Individual) (location : String) : List Individual :=
  (inds.filter (fun kv =>
      pyInB (pyLower location) (pyLower (kv.2.birth.place.getD "")) ||
      pyInB (pyLower location) (pyLower (kv.2.death.place.getD "")))).map
    (fun kv => kv.2)

/-- The dict returned by `get_statistics`. -/
structure Stats where
  total_individuals : Nat
  total_families : Nat
  gender_distribution : StrMap Nat
  occupation_distribution : StrMap Nat
  century_distribution : StrMap Nat
  living_people : Nat
deriving DecidableEq, Repr

/-- Gender bucket update: increment the matching fixed bucket, anything
else (including `''`) goes to `Unknown`. -/
def genderUpd (st : Stats) (p : Individual) : Stats :=
  if dictMem p.gender st.gender_distribution then
    { st with gender_distribution := incKey p.gender st.gender_distribution }
  else
    { st with gender_distribution := incKey "Unknown" st.gender_distribution }

/-- Occupation frequency update (non-empty occupations only). -/
def occUpd (st : Stats) (p : Individual) : Stats :=
  if p.occupation ≠ "" then
    { st with occupation_distribution := incKey p.occupation st.occupation_distribution }
  else st

/-- Birth-century update: `int(birth_date[-4:])`, skipped on short
dates or a `ValueError`. -/
def centuryUpd (st : Stats) (p : Individual) : Stats :=
  let bd := p.birth.date.getD ""
  if bd ≠ "" ∧ 4 ≤ bd.data.length then
    match pyParseInt (String.mk (bd.data.drop (bd.data.length - 4))) with
    | some year =>
      let century : Int := year.fdiv 100 + 1
      { st with century_distribution :=
          incKey (toString century ++ "th century") st.century_distribution }
    | none => st
  else st

/-- Living-people update: `if not person['death'].get('date')`. -/
def livingUpd (st : Stats) (p : Individual) : Stats :=
  if pyFalsy p.death.date then { st with living_people := st.living_people + 1 }
  else st

/-- The per-person body of the statistics loop. -/
def statStep (st : Stats) (p : Individual) : Stats :=
  livingUpd (centuryUpd (occUpd (genderUpd st p) p) p) p

def initStats (inds : StrMap Individual) (fams : StrMap Family) : Stats :=
  { total_individuals := inds.length, total_families := fams.length,
    gender_distribution := [("M", 0), ("F", 0), ("Unknown", 0)],
    occupation_distribution := [], century_distribution := [],
    living_people := 0 }

/-- `get_statistics`. -/
def getStatistics (inds : StrMap Individual) (fams : StrMap Family) : Stats :=
  inds.foldl (fun st kv => statStep st kv.2) (initStats inds fams)

/-- A node of `get_family_tree`: the expansion component models the
presence of the `'parents'` / `'children'` keys (`none` = the keys
were never created because `gen < max_gen - 1` failed). -/
inductive FamilyTree where
  | node (id name : String) (birth death : EventRec) (generation : Int)
         (expansion : Option (List FamilyTree × List FamilyTree))

/-- Inner `build_tree(pid, gen, max_gen)`.  The Python recursion has no
structural bound (it can recurse forever on cyclic child links), so the
embedding takes explicit fuel; whenever the Python call terminates, its
result equals the embedding for every sufficiently large fuel.  Falsy
(`{}`) recursive results are dropped, as in `if parent_tree:`. -/
def buildTree (inds : StrMap Individual) (maxGen : Int) :
    Nat → String → Int → Option FamilyTree
  | 0, _, _ => none
  | fuel + 1, pid, gen =>
    if gen ≥ maxGen then none
    else
      match dictGet pid inds with
      | none => none
      | some person =>
        let expansion :=
          if gen < maxGen - 1 then
            some (person.parents.filterMap
                    (fun p => buildTree inds maxGen fuel p (gen + 1)),
                  person.children.filterMap
                    (fun c => buildTree inds maxGen fuel c (gen - 1)))
          else none
        some (.node pid person.name person.birth person.death gen expansion)

/-- `get_family_tree(person_id, generations)` (`none` models the empty
dict returned for an unknown root). -/
def getFamilyTree (inds : StrMap Individual) (pid : String) (generations : Int)
    (fuel : Nat) : Option FamilyTree :=
  if dictMem pid inds then buildTree inds generations fuel pid 0 else none

/-- The `generation` field of a tree node. -/
def treeGen : FamilyTree → Int
  | .node _ _ _ _ g _ => g

/-- Whether the node carries the `'parents'` / `'children'` keys. -/
def treeHasKeys : FamilyTree → Bool
  | .node _ _ _ _ _ e => e.isSome

/-- The `'children'` array of a node ( `[]` when the key is absent). -/
def treeChildren : FamilyTree → List FamilyTree
  | .node _ _ _ _ _ none => []
  | .node _ _ _ _ _ (some pc) => pc.2

/-- The `'parents'` array of a node ( `[]` when the key is absent). -/
def treeParents : FamilyTree → List FamilyTree
  | .node _ _ _ _ _ none => []
  | .node _ _ _ _ _ (some pc) => pc.1

/-- First entry of a node's `'children'` array. -/
def firstChild (t : FamilyTree) : Option FamilyTree :=
  (treeChildren t).head?

/-- Per-family parent contribution, written from the specification
sentence: `husband` id followed by `wife` id, each included only when
non-empty, whenever the family id exists in the families map, and
nothing when it does not. -/
def famContrib (fams : StrMap Family) (fid : String) : List String :=
  match dictGet fid fams with
  | none => []
  | some fam =>
    (if fam.husband ≠ "" then [fam.husband] else []) ++
    (if fam.wife ≠ "" then [fam.wife] else [])

/-- A resolved three-generation descending chain used to exercise
`get_family_tree`: `r` has child `a`, who has child `b`. -/
def chainInds : StrMap Individual :=
  [("r", { freshInd "r" with children := ["a"] }),
   ("a", { freshInd "a" with children := ["b"] }),
   ("b", freshInd "b")]

/-- Families map of the resolver example: family `1` with husband `1`,
wife `2` and child `3`. -/
def exFams : StrMap Family :=
  [("1", { freshFam "1" with husband := "1", wife := "2", children := ["3"] })]

/-- Individuals map of the resolver example: individual `3` is a child
in family `1`. -/
def exInds : StrMap Individual :=
  [("3", { freshInd "3" with families_as_child := ["1"] })]

/-- Individual `3` after resolution against `exFams`. -/
def exResolved : Individual :=
  { freshInd "3" with families_as_child := ["1"], parents := ["1", "2"] }

/-- One-person model for the search examples. -/
def johnSmith : Individual :=
  { freshInd "1" with name := "John SMITH" }

def searchInds : StrMap Individual :=
  [("1", johnSmith)]

/-- The five-line input of the section-frame example: a `FAMC` line
between two `DATE` lines does not close the open `birth` section. -/
def c5lines : List String :=
  ["0 @I1@ INDI", "1 BIRT", "2 DATE a", "1 FAMC @F1@", "2 DATE b"]

/-- Every committed individual record carries the key it is stored
under, and the open accumulator carries `current_individual`. -/
def recIdInv (st : IndState) : Prop :=
  (∀ k r, dictGet k st.individuals = some r → r.id = k) ∧
  (∀ c r, st.curId = some c → st.curRec = some r → r.id = c)

/-- Family-side analog of `recIdInv`. -/
def famIdInv (st : FamState) : Prop :=
  (∀ k r, dictGet k st.families = some r → r.id = k) ∧
  (∀ c r, st.curId = some c → st.curRec = some r → r.id = c)

/-- Once a (non-empty) id is either committed or the open record's id,
it will end up committed. -/
def presInv (pid : String) (st : IndState) : Prop :=
  (dictGet pid st.individuals).isSome = true ∨
    (st.curId = some pid ∧ st.curRec.isSome = true)

/-- The individuals map never contains the empty key. -/
def noEmptyIndInv (st : IndState) : Prop :=
  dictGet "" st.individuals = none

/-- The families map never contains the empty key. -/
def noEmptyFamInv (st : FamState) : Prop :=
  dictGet "" st.families = none

/-- The committed key list stays duplicate-free. -/
def nodupIndInv (st : IndState) : Prop :=
  (st.individuals.map Prod.fst).Nodup

theorem foldlInv {σ α : Type} {P : σ → Prop} {f : σ → α → σ}
    (h : ∀ s a, P s → P (f s a)) :
    ∀ (l : List α) (s : σ), P s → P (l.foldl f s) := by
  intro l
  induction l with
  | nil => intro s hs; exact hs
  | cons a l ih => intro s hs; exact ih _ (h s a hs)

theorem dictGet_insert_self (k : String) (v : α) (m : StrMap α) :
    dictGet k (dictInsert k v m) = some v := by
  induction m with
  | nil => simp [dictInsert, dictGet]
  | cons kv rest ih =>
    obtain ⟨k2, v2⟩ := kv
    by_cases h : k2 = k
    · simp [dictInsert, dictGet, h]
    · simp [dictInsert, dictGet, h, ih]

theorem dictGet_insert_ne {k' k : String} (h : k' ≠ k) (v : α) (m : StrMap α) :
    dictGet k' (dictInsert k v m) = dictGet k' m := by
  induction m with
  | nil =>
    simp only [dictInsert, dictGet]
    rw [if_neg (fun hh : k = k' => h hh.symm)]
  | cons kv rest ih =>
    obtain ⟨k2, v2⟩ := kv
    simp only [dictInsert]
    by_cases h2 : k2 = k
    · rw [if_pos h2]
      simp only [dictGet]
      rw [if_neg (fun hh : k2 = k' => h (hh ▸ h2))]
      rw [if_neg (fun hh : k2 = k' => h (hh ▸ h2))]
    · rw [if_neg h2]
      simp only [dictGet]
      by_cases h3 : k2 = k'
      · rw [if_pos h3, if_pos h3]
      · rw [if_neg h3, if_neg h3]; exact ih

theorem dictGet_mapVals (f : String → α → β) (m : StrMap α) (k : String) :
    dictGet k (mapVals f m) = (dictGet k m).map (f k) := by
  induction m with
  | nil => simp [mapVals, dictGet]
  | cons kv rest ih =>
    obtain ⟨k2, v2⟩ := kv
    by_cases h : k2 = k
    · subst h; simp [mapVals, dictGet]
    · simpa [mapVals, dictGet, h] using ih

theorem mem_keys_insert {k a : String} {v : α} {m : StrMap α}
    (h : a ∈ (dictInsert k v m).map Prod.fst) :
    a = k ∨ a ∈ m.map Prod.fst := by
  induction m with
  | nil => simpa [dictInsert] using h
  | cons kv rest ih =>
    obtain ⟨k2, v2⟩ := kv
    by_cases h2 : k2 = k
    · simpa [dictInsert, h2] using h
    · simp only [dictInsert, h2, if_false, List.map_cons, List.mem_cons] at h
      rcases h with h | h
      · exact Or.inr (by simp [h])
      · rcases ih h with h3 | h3
        · exact Or.inl h3
        · exact Or.inr (by simp [h3])

theorem nodupKeys_insert {k : String} {v : α} {m : StrMap α}
    (h : (m.map Prod.fst).Nodup) :
    ((dictInsert k v m).map Prod.fst).Nodup := by
  induction m with
  | nil => simp [dictInsert]
  | cons kv rest ih =>
    obtain ⟨k2, v2⟩ := kv
    simp only [List.map_cons, List.nodup_cons] at h
    by_cases h2 : k2 = k
    · simp only [dictInsert, h2, if_true, List.map_cons, List.nodup_cons]
      exact ⟨by simpa [h2] using h.1, h.2⟩
    · simp only [dictInsert, h2, if_false, List.map_cons, List.nodup_cons]
      refine ⟨fun hmem => ?_, ih h.2⟩
      rcases mem_keys_insert hmem with h3 | h3
      · exact h2 h3
      · exact h.1 h3

theorem keys_mapVals (f : String → α → β) (m : StrMap α) :
    (mapVals f m).map Prod.fst = m.map Prod.fst := by
  induction m with
  | nil => rfl
  | cons kv rest ih => simp [mapVals]

theorem startsWithB_iff : ∀ a b : List Char,
    startsWithB a b = true ↔ ∃ t, b = a ++ t := by
  intro a
  induction a with
  | nil => intro b; simp [startsWithB]
  | cons c cs ih =>
    intro b
    cases b with
    | nil =>
      simp only [startsWithB, Bool.false_eq_true, false_iff]
      rintro ⟨t, ht⟩
      exact absurd ht (by simp)
    | cons d ds =>
      simp only [startsWithB, Bool.and_eq_true, beq_iff_eq, ih ds]
      constructor
      · rintro ⟨rfl, t, rfl⟩; exact ⟨t, rfl⟩
      · rintro ⟨t, ht⟩
        rw [List.cons_append] at ht
        obtain ⟨rfl, rfl⟩ : d = c ∧ ds = cs ++ t := by
          constructor <;> [exact (List.cons.injEq _ _ _ _ ▸ ht).1;
            exact (List.cons.injEq _ _ _ _ ▸ ht).2]
        exact ⟨rfl, t, rfl⟩

theorem containsSubB_iff : ∀ n h : List Char,
    containsSubB n h = true ↔ ∃ s t, h = s ++ n ++ t := by
  intro n h
  induction h with
  | nil =>
    simp only [containsSubB, startsWithB_iff]
    constructor
    · rintro ⟨t, ht⟩; exact ⟨[], t, by simpa using ht⟩
    · rintro ⟨s, t, ht⟩
      refine ⟨t, ?_⟩
      have hs : s = [] := by
        cases s with
        | nil => rfl
        | cons a as => exact absurd ht.symm (by simp)
      simpa [hs] using ht
  | cons c t ih =>
    simp only [containsSubB, Bool.or_eq_true, startsWithB_iff, ih]
    constructor
    · rintro (⟨u, hu⟩ | ⟨s, u, hu⟩)
      · exact ⟨[], u, by simpa using hu⟩
      · exact ⟨c :: s, u, by simp [hu]⟩
    · rintro ⟨s, u, hu⟩
      cases s with
      | nil => exact Or.inl ⟨u, by simpa using hu⟩
      | cons d ds =>
        right
        refine ⟨ds, u, ?_⟩
        have := (List.cons.injEq _ _ _ _ ▸ (by simpa using hu : c :: t = d :: (ds ++ n ++ u)))
        exact this.2

theorem pyInB_trans {a b c : String} (h1 : pyInB a b = true)
    (h2 : pyInB b c = true) : pyInB a c = true := by
  unfold pyInB at *
  rw [containsSubB_iff] at *
  obtain ⟨s1, t1, hb⟩ := h1
  obtain ⟨s2, t2, hc⟩ := h2
  exact ⟨s2 ++ s1, t1 ++ t2, by simp [hc, hb]⟩

theorem stepIndi_tok {st : IndState} {line : String} {lvl : Int}
    {parts : List String} (h : tokenizeParts line = some (lvl, parts)) :
    stepIndi st line = stepIndiTok st lvl parts := by
  unfold stepIndi; rw [h]

theorem stepIndi_skip {st : IndState} {line : String}
    (h : tokenizeParts line = none) : stepIndi st line = st := by
  unfold stepIndi; rw [h]

theorem stepFam_tok {st : FamState} {line : String} {lvl : Int}
    {parts : List String} (h : tokenizeParts line = some (lvl, parts)) :
    stepFam st line = stepFamTok st lvl parts := by
  unfold stepFam; rw [h]

theorem stepFam_skip {st : FamState} {line : String}
    (h : tokenizeParts line = none) : stepFam st line = st := by
  unfold stepFam; rw [h]

theorem stepIndiTok_start {st : IndState} {lvl : Int} {parts : List String}
    (h1 : lvl = 0) (h2 : 3 ≤ parts.length) (h3 : parts.getD 2 "" = "INDI") :
    stepIndiTok st lvl parts = startInd st (parts.getD 1 "") := by
  unfold stepIndiTok; rw [if_pos ⟨h1, h2, h3⟩]

theorem stepFamTok_start {st : FamState} {lvl : Int} {parts : List String}
    (h1 : lvl = 0) (h2 : 3 ≤ parts.length) (h3 : parts.getD 2 "" = "FAM") :
    stepFamTok st lvl parts = startFam st (parts.getD 1 "") := by
  unfold stepFamTok; rw [if_pos ⟨h1, h2, h3⟩]

set_option maxHeartbeats 1000000 in
theorem handleL1_id (r : Individual) (sec : Option IndSection)
    (tag value : String) : (handleL1 r sec tag value).1.id = r.id := by
  unfold handleL1; split_ifs <;> rfl

set_option maxHeartbeats 1000000 in
theorem handleL2_id (r : Individual) (sec : IndSection) (tag value : String) :
    (handleL2 r sec tag value).id = r.id := by
  cases sec <;> (simp only [handleL2]; split_ifs <;> rfl)

set_option maxHeartbeats 1000000 in
theorem handleFamL1_id (r : Family) (tag value : String) :
    (handleFamL1 r tag value).id = r.id := by
  unfold handleFamL1; split_ifs <;> rfl

set_option maxHeartbeats 1000000 in
theorem handleFamL2_id (r : Family) (tag value : String) :
    (handleFamL2 r tag value).id = r.id := by
  unfold handleFamL2; split_ifs <;> rfl

set_option maxHeartbeats 1000000 in
theorem handleL1_sec_frame {tag : String} (r : Individual)
    (sec : Option IndSection) (value : String) (h1 : tag ≠ "BIRT")
    (h2 : tag ≠ "DEAT") (h3 : tag ≠ "OBJE") (h4 : tag ≠ "NOTE") :
    (handleL1 r sec tag value).2 = sec := by
  unfold handleL1; split_ifs <;> simp_all

theorem stepIndiTok_not_start {st : IndState} {lvl : Int} {parts : List String}
    (h : ¬(lvl = 0 ∧ 3 ≤ parts.length ∧ parts.getD 2 "" = "INDI")) :
    (stepIndiTok st lvl parts).individuals = st.individuals ∧
    (stepIndiTok st lvl parts).curId = st.curId ∧
    (stepIndiTok st lvl parts).curRec.isSome = st.curRec.isSome ∧
    (stepIndiTok st lvl parts).curRec.map Individual.id =
      st.curRec.map Individual.id := by
  obtain ⟨inds, cid?, rec?, sec?⟩ := st
  unfold stepIndiTok
  rw [if_neg h]
  cases cid? with
  | none => simp
  | some cid =>
    cases rec? with
    | none => simp
    | some r =>
      simp only
      split_ifs with hA hB
      · simp [handleL1_id]
      · cases sec? with
        | none => simp
        | some sec => simp [handleL2_id]
      · simp

theorem stepFamTok_not_start {st : FamState} {lvl : Int} {parts : List String}
    (h : ¬(lvl = 0 ∧ 3 ≤ parts.length ∧ parts.getD 2 "" = "FAM")) :
    (stepFamTok st lvl parts).families = st.families ∧
    (stepFamTok st lvl parts).curId = st.curId ∧
    (stepFamTok st lvl parts).curRec.isSome = st.curRec.isSome ∧
    (stepFamTok st lvl parts).curRec.map Family.id =
      st.curRec.map Family.id := by
  obtain ⟨fams, cid?, rec?⟩ := st
  unfold stepFamTok
  rw [if_neg h]
  cases cid? with
  | none => simp
  | some cid =>
    cases rec? with
    | none => simp
    | some r =>
      simp only
      split_ifs with hA hB
      · simp [handleFamL1_id]
      · simp [handleFamL2_id]
      · simp

theorem stepIndiTok_other {st : IndState} {lvl : Int} {parts : List String}
    (h0 : lvl ≠ 0) (h1 : lvl ≠ 1) (h2 : lvl ≠ 2) :
    stepIndiTok st lvl parts = st := by
  obtain ⟨inds, cid?, rec?, sec?⟩ := st
  unfold stepIndiTok
  rw [if_neg (by rintro ⟨hh, _⟩; exact h0 hh)]
  cases cid? with
  | none => rfl
  | some cid =>
    cases rec? with
    | none => rfl
    | some r =>
      simp only
      rw [if_neg (by rintro ⟨_, hh⟩; exact h1 hh),
          if_neg (by rintro ⟨_, hh⟩; exact h2 hh)]

theorem stepFamTok_other {st : FamState} {lvl : Int} {parts : List String}
    (h0 : lvl ≠ 0) (h1 : lvl ≠ 1) (h2 : lvl ≠ 2) :
    stepFamTok st lvl parts = st := by
  obtain ⟨fams, cid?, rec?⟩ := st
  unfold stepFamTok
  rw [if_neg (by rintro ⟨hh, _⟩; exact h0 hh)]
  cases cid? with
  | none => rfl
  | some cid =>
    cases rec? with
    | none => rfl
    | some r =>
      simp only
      rw [if_neg (by rintro ⟨_, hh⟩; exact h1 hh),
          if_neg (by rintro ⟨_, hh⟩; exact h2 hh)]

theorem stepIndiTok_emptyCur {st : IndState} {lvl : Int} {parts : List String}
    (hc : st.curId = some "") (hl : lvl ≠ 0) :
    stepIndiTok st lvl parts = st := by
  obtain ⟨inds, cid?, rec?, sec?⟩ := st
  cases hc
  unfold stepIndiTok
  rw [if_neg (by rintro ⟨hh, _⟩; exact hl hh)]
  cases rec? with
  | none => rfl
  | some r =>
    simp only
    rw [if_neg (by rintro ⟨hh, _⟩; exact hh rfl),
        if_neg (by rintro ⟨hh, _⟩; exact hh rfl)]

theorem stepFamTok_emptyCur {st : FamState} {lvl : Int} {parts : List String}
    (hc : st.curId = some "") (hl : lvl ≠ 0) :
    stepFamTok st lvl parts = st := by
  obtain ⟨fams, cid?, rec?⟩ := st
  cases hc
  unfold stepFamTok
  rw [if_neg (by rintro ⟨hh, _⟩; exact hl hh)]
  cases rec? with
  | none => rfl
  | some r =>
    simp only
    rw [if_neg (by rintro ⟨hh, _⟩; exact hh rfl),
        if_neg (by rintro ⟨hh, _⟩; exact hh rfl)]

theorem splitAtSpace_none {a : List Char} (h : ' ' ∉ a) :
    splitAtSpace a = none := by
  induction a with
  | nil => rfl
  | cons c cs ih =>
    simp only [splitAtSpace]
    rw [if_neg (fun hc : c = ' ' => h (by rw [← hc]; exact List.mem_cons_self c cs))]
    rw [ih (fun hm => h (List.mem_cons_of_mem c hm))]
    rfl

theorem splitAtSpace_append {a : List Char} (b : List Char) (h : ' ' ∉ a) :
    splitAtSpace (a ++ ' ' :: b) = some (a, b) := by
  induction a with
  | nil => simp [splitAtSpace]
  | cons c cs ih =>
    simp only [List.cons_append, splitAtSpace]
    rw [if_neg (fun hc : c = ' ' => h (by rw [← hc]; exact List.mem_cons_self c cs))]
    simp only [List.append_eq]
    rw [ih (fun hm => h (List.mem_cons_of_mem c hm))]
    rfl

theorem pySplit2_three {l t v : List Char} (hl : ' ' ∉ l) (ht : ' ' ∉ t) :
    pySplitSpaceMax 2 (l ++ ' ' :: (t ++ ' ' :: v)) = [l, t, v] := by
  have e1 : pySplitSpaceMax 2 (l ++ ' ' :: (t ++ ' ' :: v)) =
      match splitAtSpace (l ++ ' ' :: (t ++ ' ' :: v)) with
      | none => [l ++ ' ' :: (t ++ ' ' :: v)]
      | some (a, b) => a :: pySplitSpaceMax 1 b := rfl
  rw [e1, splitAtSpace_append _ hl]
  show l :: pySplitSpaceMax 1 (t ++ ' ' :: v) = [l, t, v]
  have e2 : pySplitSpaceMax 1 (t ++ ' ' :: v) =
      match splitAtSpace (t ++ ' ' :: v) with
      | none => [t ++ ' ' :: v]
      | some (a, b) => a :: pySplitSpaceMax 0 b := rfl
  rw [e2, splitAtSpace_append _ ht]
  rfl

theorem data_three (l t v : String) :
    (l ++ " " ++ t ++ " " ++ v).data = l.data ++ ' ' :: (t.data ++ ' ' :: v.data) := by
  have hsp : (" " : String).data = [' '] := rfl
  simp [String.data_append, hsp]

theorem tokenizeParts_three {l t v : String} (hl : ' ' ∉ l.data)
    (ht : ' ' ∉ t.data)
    (hstrip : pyStrip (l ++ " " ++ t ++ " " ++ v) = l ++ " " ++ t ++ " " ++ v) :
    tokenizeParts (l ++ " " ++ t ++ " " ++ v) =
      (pyParseInt l).map (fun n => (n, [l, t, v])) := by
  have hne : (l ++ " " ++ t ++ " " ++ v) ≠ "" := by
    intro hEq
    have hd : (l ++ " " ++ t ++ " " ++ v).data = [] := by rw [hEq]
    rw [data_three] at hd
    exact absurd hd (by simp)
  have hsplit : pySplitSpaceMax 2 (l ++ " " ++ t ++ " " ++ v).data =
      [l.data, t.data, v.data] := by
    rw [data_three]
    exact pySplit2_three hl ht
  simp only [tokenizeParts]
  rw [hstrip, if_neg hne, hsplit]
  have hmk : ∀ s : String, String.mk s.data = s := fun _ => rfl
  simp only [List.map_cons, List.map_nil, hmk]
  rw [if_neg (show ¬([l, t, v].length < 2) from by simp)]
  have hget : ([l, t, v].getD 0 "") = l := rfl
  rw [hget]
  cases hp : pyParseInt l with
  | none => rfl
  | some n => rfl

theorem pyInB_empty (h : String) : pyInB "" h = true := by
  unfold pyInB
  show containsSubB [] h.data = true
  cases hd : h.data with
  | nil => rfl
  | cons c t => simp [containsSubB, startsWithB]

theorem genderUpd_living (st : Stats) (p : Individual) :
    (genderUpd st p).living_people = st.living_people := by
  unfold genderUpd; split_ifs <;> rfl

theorem occUpd_living (st : Stats) (p : Individual) :
    (occUpd st p).living_people = st.living_people := by
  unfold occUpd; split_ifs <;> rfl

theorem centuryUpd_living (st : Stats) (p : Individual) :
    (centuryUpd st p).living_people = st.living_people := by
  unfold centuryUpd
  dsimp only
  split_ifs
  · split <;> rfl
  · rfl

theorem statStep_living (st : Stats) (p : Individual) :
    (statStep st p).living_people =
      st.living_people + (if pyFalsy p.death.date then 1 else 0) := by
  unfold statStep livingUpd
  split_ifs with h <;>
    simp [centuryUpd_living, occUpd_living, genderUpd_living]

theorem foldl_statStep_living :
    ∀ (l : List (String × Individual)) (s : Stats),
      (l.foldl (fun st kv => statStep st kv.2) s).living_people =
        s.living_people + l.countP (fun kv => pyFalsy kv.2.death.date) := by
  intro l
  induction l with
  | nil => intro s; simp
  | cons kv rest ih =>
    intro s
    simp only [List.foldl_cons, List.countP_cons]
    rw [ih, statStep_living]
    omega

theorem pyFalsy_eq_decide (o : Option String) :
    pyFalsy o = decide (o = none ∨ o = some "") := by
  cases o with
  | none => rfl
  | some s =>
    show (s == "") = _
    by_cases h : s = "" <;> simp [h]

theorem parentStep_eq (fams : StrMap Family) (acc : List String) (fid : String) :
    parentStep fams acc fid = acc ++ famContrib fams fid := by
  unfold parentStep famContrib
  cases dictGet fid fams with
  | none => simp
  | some fam => dsimp only; split_ifs <;> simp

theorem foldl_parentStep (fams : StrMap Family) :
    ∀ (l : List String) (init : List String),
      l.foldl (parentStep fams) init = init ++ l.flatMap (famContrib fams) := by
  intro l
  induction l with
  | nil => intro init; simp
  | cons fid rest ih =>
    intro init
    simp only [List.foldl_cons, List.flatMap_cons]
    rw [parentStep_eq, ih, List.append_assoc]

theorem famContrib_ne_empty {fams : StrMap Family} {fid a : String}
    (h : a ∈ famContrib fams fid) : a ≠ "" := by
  unfold famContrib at h
  cases hd : dictGet fid fams with
  | none => rw [hd] at h; simp at h
  | some fam =>
    rw [hd] at h
    rcases List.mem_append.1 h with h2 | h2 <;>
      (split_ifs at h2 with hh <;> simp at h2) <;> (rw [h2]; exact hh)

theorem resolveIndividual_parents (fams : StrMap Family) (k : String)
    (ind : Individual) :
    (resolveIndividual fams k ind).parents =
      ind.families_as_child.flatMap (famContrib fams) := by
  show (ind.families_as_child.foldl (parentStep fams) []).filter
      (fun p => p ≠ "") = _
  rw [foldl_parentStep]
  simp only [List.nil_append]
  apply List.filter_eq_self.mpr
  intro a ha
  obtain ⟨fid, _, hmem⟩ := List.mem_flatMap.1 ha
  simp [famContrib_ne_empty hmem]

theorem resolveIndividual_fac (fams : StrMap Family) (k : String)
    (ind : Individual) :
    (resolveIndividual fams k ind).families_as_child =
      ind.families_as_child := rfl

theorem resolveIndividual_id_stable (fams : StrMap Family) (k : String)
    (ind : Individual) : (resolveIndividual fams k ind).id = ind.id := rfl

theorem commitInd_id {st : IndState} (h : recIdInv st) :
    ∀ k r, dictGet k (commitInd st) = some r → r.id = k := by
  obtain ⟨inds, cid?, rec?, sec?⟩ := st
  cases cid? with
  | none => exact h.1
  | some cid =>
    cases rec? with
    | none => exact h.1
    | some r0 =>
      show ∀ k r, dictGet k (if cid = "" then inds else dictInsert cid r0 inds) =
        some r → r.id = k
      split_ifs with he
      · exact h.1
      · intro k r hg
        by_cases hk : k = cid
        · subst hk
          rw [dictGet_insert_self] at hg
          injection hg with hgr
          rw [← hgr]
          exact h.2 _ _ rfl rfl
        · rw [dictGet_insert_ne hk] at hg
          exact h.1 k r hg

theorem commitFam_id {st : FamState} (h : famIdInv st) :
    ∀ k r, dictGet k (commitFam st) = some r → r.id = k := by
  obtain ⟨fams, cid?, rec?⟩ := st
  cases cid? with
  | none => exact h.1
  | some cid =>
    cases rec? with
    | none => exact h.1
    | some r0 =>
      show ∀ k r, dictGet k (if cid = "" then fams else dictInsert cid r0 fams) =
        some r → r.id = k
      split_ifs with he
      · exact h.1
      · intro k r hg
        by_cases hk : k = cid
        · subst hk
          rw [dictGet_insert_self] at hg
          injection hg with hgr
          rw [← hgr]
          exact h.2 _ _ rfl rfl
        · rw [dictGet_insert_ne hk] at hg
          exact h.1 k r hg

theorem stepIndi_recIdInv : ∀ (st : IndState) (line : String),
    recIdInv st → recIdInv (stepIndi st line) := by
  intro st line h
  cases htok : tokenizeParts line with
  | none => rw [stepIndi_skip htok]; exact h
  | some lp =>
    obtain ⟨lvl, parts⟩ := lp
    rw [stepIndi_tok htok]
    by_cases hs : lvl = 0 ∧ 3 ≤ parts.length ∧ parts.getD 2 "" = "INDI"
    · rw [stepIndiTok_start hs.1 hs.2.1 hs.2.2]
      constructor
      · exact commitInd_id h
      · intro c r hc hr
        simp only [startInd] at hc hr
        cases hc
        cases hr
        rfl
    · obtain ⟨hI, hC, hS, hM⟩ := stepIndiTok_not_start hs
      constructor
      · rw [hI]; exact h.1
      · intro c r hc hr
        cases hrec : st.curRec with
        | none => rw [hrec] at hM; rw [hr] at hM; simp at hM
        | some r0 =>
          have hid : r.id = r0.id := by
            rw [hr, hrec] at hM
            simpa using hM
          rw [hid]
          exact h.2 c r0 (by rw [← hC, hc]) hrec

theorem stepFam_famIdInv : ∀ (st : FamState) (line : String),
    famIdInv st → famIdInv (stepFam st line) := by
  intro st line h
  cases htok : tokenizeParts line with
  | none => rw [stepFam_skip htok]; exact h
  | some lp =>
    obtain ⟨lvl, parts⟩ := lp
    rw [stepFam_tok htok]
    by_cases hs : lvl = 0 ∧ 3 ≤ parts.length ∧ parts.getD 2 "" = "FAM"
    · rw [stepFamTok_start hs.1 hs.2.1 hs.2.2]
      constructor
      · exact commitFam_id h
      · intro c r hc hr
        simp only [startFam] at hc hr
        cases hc
        cases hr
        rfl
    · obtain ⟨hI, hC, hS, hM⟩ := stepFamTok_not_start hs
      constructor
      · rw [hI]; exact h.1
      · intro c r hc hr
        cases hrec : st.curRec with
        | none => rw [hrec] at hM; rw [hr] at hM; simp at hM
        | some r0 =>
          have hid : r.id = r0.id := by
            rw [hr, hrec] at hM
            simpa using hM
          rw [hid]
          exact h.2 c r0 (by rw [← hC, hc]) hrec

theorem extractIndividuals_id (lines : List String) :
    ∀ k r, dictGet k (extractIndividuals lines) = some r → r.id = k := by
  have hinv : recIdInv (lines.foldl stepIndi initIndState) :=
    foldlInv stepIndi_recIdInv lines initIndState
      ⟨fun k r hg => by simp [initIndState, dictGet] at hg,
       fun c r hc _ => by simp [initIndState] at hc⟩
  exact commitInd_id hinv

theorem extractFamilies_id (lines : List String) :
    ∀ k r, dictGet k (extractFamilies lines) = some r → r.id = k := by
  have hinv : famIdInv (lines.foldl stepFam initFamState) :=
    foldlInv stepFam_famIdInv lines initFamState
      ⟨fun k r hg => by simp [initFamState, dictGet] at hg,
       fun c r hc _ => by simp [initFamState] at hc⟩
  exact commitFam_id hinv

theorem dictGet_insert_isSome {pid k : String} {v : α} {m : StrMap α}
    (h : (dictGet pid m).isSome = true) :
    (dictGet pid (dictInsert k v m)).isSome = true := by
  by_cases hk : pid = k
  · subst hk; rw [dictGet_insert_self]; rfl
  · rw [dictGet_insert_ne hk]; exact h

theorem commitInd_pres {pid : String} {st : IndState} (hne : pid ≠ "")
    (h : presInv pid st) : (dictGet pid (commitInd st)).isSome = true := by
  obtain ⟨inds, cid?, rec?, sec?⟩ := st
  rcases h with h | ⟨hc, hr⟩
  · cases cid? with
    | none => exact h
    | some cid =>
      cases rec? with
      | none => exact h
      | some r0 =>
        show (dictGet pid (if cid = "" then inds else dictInsert cid r0 inds)).isSome = true
        split_ifs
        · exact h
        · exact dictGet_insert_isSome h
  · cases hc
    cases rec? with
    | none => simp at hr
    | some r0 =>
      show (dictGet pid (if pid = "" then inds else dictInsert pid r0 inds)).isSome = true
      rw [if_neg hne, dictGet_insert_self]
      rfl

theorem stepIndi_pres {pid : String} (hne : pid ≠ "") :
    ∀ (st : IndState) (line : String), presInv pid st →
      presInv pid (stepIndi st line) := by
  intro st line h
  cases htok : tokenizeParts line with
  | none => rw [stepIndi_skip htok]; exact h
  | some lp =>
    obtain ⟨lvl, parts⟩ := lp
    rw [stepIndi_tok htok]
    by_cases hs : lvl = 0 ∧ 3 ≤ parts.length ∧ parts.getD 2 "" = "INDI"
    · rw [stepIndiTok_start hs.1 hs.2.1 hs.2.2]
      exact Or.inl (commitInd_pres hne h)
    · obtain ⟨hI, hC, hS, _⟩ := stepIndiTok_not_start hs
      rcases h with h | ⟨hc, hr⟩
      · exact Or.inl (by rw [hI]; exact h)
      · exact Or.inr ⟨by rw [hC]; exact hc, by rw [hS]; exact hr⟩

theorem commitInd_noEmpty {st : IndState} (h : noEmptyIndInv st) :
    dictGet "" (commitInd st) = none := by
  obtain ⟨inds, cid?, rec?, sec?⟩ := st
  cases cid? with
  | none => exact h
  | some cid =>
    cases rec? with
    | none => exact h
    | some r0 =>
      show dictGet "" (if cid = "" then inds else dictInsert cid r0 inds) = none
      split_ifs with he
      · exact h
      · rw [dictGet_insert_ne (fun hh => he hh.symm)]
        exact h

theorem commitFam_noEmpty {st : FamState} (h : noEmptyFamInv st) :
    dictGet "" (commitFam st) = none := by
  obtain ⟨fams, cid?, rec?⟩ := st
  cases cid? with
  | none => exact h
  | some cid =>
    cases rec? with
    | none => exact h
    | some r0 =>
      show dictGet "" (if cid = "" then fams else dictInsert cid r0 fams) = none
      split_ifs with he
      · exact h
      · rw [dictGet_insert_ne (fun hh => he hh.symm)]
        exact h

theorem stepIndi_noEmpty : ∀ (st : IndState) (line : String),
    noEmptyIndInv st → noEmptyIndInv (stepIndi st line) := by
  intro st line h
  cases htok : tokenizeParts line with
  | none => rw [stepIndi_skip htok]; exact h
  | some lp =>
    obtain ⟨lvl, parts⟩ := lp
    rw [stepIndi_tok htok]
    by_cases hs : lvl = 0 ∧ 3 ≤ parts.length ∧ parts.getD 2 "" = "INDI"
    · rw [stepIndiTok_start hs.1 hs.2.1 hs.2.2]
      exact commitInd_noEmpty h
    · obtain ⟨hI, _, _, _⟩ := stepIndiTok_not_start hs
      show dictGet "" (stepIndiTok st lvl parts).individuals = none
      rw [hI]; exact h

theorem stepFam_noEmpty : ∀ (st : FamState) (line : String),
    noEmptyFamInv st → noEmptyFamInv (stepFam st line) := by
  intro st line h
  cases htok : tokenizeParts line with
  | none => rw [stepFam_skip htok]; exact h
  | some lp =>
    obtain ⟨lvl, parts⟩ := lp
    rw [stepFam_tok htok]
    by_cases hs : lvl = 0 ∧ 3 ≤ parts.length ∧ parts.getD 2 "" = "FAM"
    · rw [stepFamTok_start hs.1 hs.2.1 hs.2.2]
      exact commitFam_noEmpty h
    · obtain ⟨hI, _, _, _⟩ := stepFamTok_not_start hs
      show dictGet "" (stepFamTok st lvl parts).families = none
      rw [hI]; exact h

theorem commitInd_nodup {st : IndState} (h : nodupIndInv st) :
    ((commitInd st).map Prod.fst).Nodup := by
  obtain ⟨inds, cid?, rec?, sec?⟩ := st
  cases cid? with
  | none => exact h
  | some cid =>
    cases rec? with
    | none => exact h
    | some r0 =>
      show ((if cid = "" then inds else dictInsert cid r0 inds).map Prod.fst).Nodup
      split_ifs
      · exact h
      · exact nodupKeys_insert h

theorem stepIndi_nodup : ∀ (st : IndState) (line : String),
    nodupIndInv st → nodupIndInv (stepIndi st line) := by
  intro st line h
  cases htok : tokenizeParts line with
  | none => rw [stepIndi_skip htok]; exact h
  | some lp =>
    obtain ⟨lvl, parts⟩ := lp
    rw [stepIndi_tok htok]
    by_cases hs : lvl = 0 ∧ 3 ≤ parts.length ∧ parts.getD 2 "" = "INDI"
    · rw [stepIndiTok_start hs.1 hs.2.1 hs.2.2]
      exact commitInd_nodup h
    · obtain ⟨hI, _, _, _⟩ := stepIndiTok_not_start hs
      show ((stepIndiTok st lvl parts).individuals.map Prod.fst).Nodup
      rw [hI]; exact h

theorem stepIndi_startLine {st : IndState} {line : String} {lvl : Int}
    {parts : List String} (htok : tokenizeParts line = some (lvl, parts))
    (h0 : lvl = 0) (h2 : 3 ≤ parts.length) (h3 : parts.getD 2 "" = "INDI") :
    stepIndi st line = startInd st (parts.getD 1 "") := by
  rw [stepIndi_tok htok, stepIndiTok_start h0 h2 h3]

theorem stepIndiTok_sec_L1 {st : IndState} {lvl : Int} {parts : List String}
    (hl : lvl = 1) (h1 : parts.getD 1 "" ≠ "BIRT") (h2 : parts.getD 1 "" ≠ "DEAT")
    (h3 : parts.getD 1 "" ≠ "OBJE") (h4 : parts.getD 1 "" ≠ "NOTE") :
    (stepIndiTok st lvl parts).curSection = st.curSection := by
  obtain ⟨inds, cid?, rec?, sec?⟩ := st
  unfold stepIndiTok
  rw [if_neg (by rintro ⟨hh, _⟩; rw [hl] at hh; exact absurd hh (by decide))]
  cases cid? with
  | none => rfl
  | some cid =>
    cases rec? with
    | none => rfl
    | some r =>
      dsimp only
      split_ifs with hA hB
      · exact handleL1_sec_frame r sec? (parts.getD 2 "") h1 h2 h3 h4
      · rw [hl] at hB
        exact absurd hB.2 (by decide)
      · rfl

theorem stepIndiTok_sec_notL1 {st : IndState} {lvl : Int} {parts : List String}
    (h0 : ¬(lvl = 0 ∧ 3 ≤ parts.length ∧ parts.getD 2 "" = "INDI"))
    (h1 : lvl ≠ 1) :
    (stepIndiTok st lvl parts).curSection = st.curSection := by
  obtain ⟨inds, cid?, rec?, sec?⟩ := st
  unfold stepIndiTok
  rw [if_neg h0]
  cases cid? with
  | none => rfl
  | some cid =>
    cases rec? with
    | none => rfl
    | some r =>
      dsimp only
      rw [if_neg (by rintro ⟨_, hh⟩; exact h1 hh)]
      split_ifs with hB
      · cases sec? with
        | none => rfl
        | some sec => rfl
      · rfl

/-- C1: evaluation of `get_family_tree` on a three-generation
descending chain with `generations = 2`: the grandchild node is built
at generation `-2` (outside the claimed open interval `(-2, 2)`), and
the child node at generation `-1` still carries expansion keys, so the
downward recursion is not stopped by the `generations` bound. -/
theorem claim_c1_descent_unbounded :
    (getFamilyTree chainInds "r" 2 6).map treeGen = some 0 ∧
    ((getFamilyTree chainInds "r" 2 6).bind firstChild).map treeGen = some (-1) ∧
    (((getFamilyTree chainInds "r" 2 6).bind firstChild).bind firstChild).map
      treeGen = some (-2) ∧
    ((getFamilyTree chainInds "r" 2 6).bind firstChild).map treeHasKeys =
      some true := by
  refine ⟨?_, ?_, ?_, ?_⟩ <;> rfl

/-- C2 counterexample: the level-0 line `0 @I@ INDI` has third
whitespace-delimited field `INDI`, yet `parse` produces an empty
individuals map because the id strips to the empty string. -/
theorem claim_c2_counterexample :
    (parseCore ["0 @I@ INDI"]).individuals = [] ∧ stripIndiId "@I@" = "" :=
  ⟨by decide, by decide⟩

/-- C2 (amended): each tokenized level-0 line whose third field is
`INDI` and whose second field strips to a non-empty id leaves an entry
under that id in the individuals map returned by `parse`; the key list
of that map is duplicate-free, so there is exactly one entry per
distinct non-empty stripped id. -/
theorem claim_c2_amended :
    (∀ (lines : List String) (line : String) (lvl : Int) (parts : List String),
      line ∈ lines → tokenizeParts line = some (lvl, parts) → lvl = 0 →
      3 ≤ parts.length → parts.getD 2 "" = "INDI" →
      stripIndiId (parts.getD 1 "") ≠ "" →
      (dictGet (stripIndiId (parts.getD 1 ""))
        (parseCore lines).individuals).isSome = true) ∧
    (∀ lines : List String,
      ((parseCore lines).individuals.map Prod.fst).Nodup) := by
  constructor
  · intro lines line lvl parts hmem htok h0 hlen hindi hpid
    obtain ⟨pre, post, rfl⟩ := List.append_of_mem hmem
    have hbase : presInv (stripIndiId (parts.getD 1 ""))
        (stepIndi (pre.foldl stepIndi initIndState) line) := by
      rw [stepIndi_startLine htok h0 hlen hindi]
      exact Or.inr ⟨rfl, rfl⟩
    have hpost := foldlInv (stepIndi_pres hpid) post _ hbase
    have hext : (dictGet (stripIndiId (parts.getD 1 ""))
        (extractIndividuals (pre ++ line :: post))).isSome = true := by
      unfold extractIndividuals
      rw [List.foldl_append]
      simp only [List.foldl_cons]
      exact commitInd_pres hpid hpost
    show (dictGet _ (resolveRelationships
      (extractIndividuals (pre ++ line :: post))
      (extractFamilies (pre ++ line :: post)))).isSome = true
    unfold resolveRelationships
    rw [dictGet_mapVals]
    cases hg : dictGet (stripIndiId (parts.getD 1 ""))
        (extractIndividuals (pre ++ line :: post)) with
    | none => rw [hg] at hext; simp at hext
    | some ind0 => rfl
  · intro lines
    have hn : nodupIndInv (lines.foldl stepIndi initIndState) :=
      foldlInv stepIndi_nodup lines _ (by simp [initIndState, nodupIndInv])
    have hc : ((extractIndividuals lines).map Prod.fst).Nodup :=
      commitInd_nodup hn
    show ((resolveRelationships (extractIndividuals lines)
      (extractFamilies lines)).map Prod.fst).Nodup
    unfold resolveRelationships
    rw [keys_mapVals]
    exact hc

/-- C2 witness: the single line `0 @I1@ INDI` puts an entry under the
stripped id in the individuals map. -/
theorem claim_c2_witness :
    (dictGet (stripIndiId (["0", "@I1@", "INDI"].getD 1 ""))
      (parseCore ["0 @I1@ INDI"]).individuals).isSome = true :=
  claim_c2_amended.1 ["0 @I1@ INDI"] "0 @I1@ INDI" 0 ["0", "@I1@", "INDI"]
    (by simp) (by decide) rfl (by decide) (by decide) (by decide)

/-- C3 counterexample: a line with tab-separated fields is skipped
entirely rather than tokenized, and a run of two spaces yields an
empty tag field with the remainder as value, not the three
whitespace-delimited fields. -/
theorem claim_c3_counterexample :
    tokenizeLTV "1\tNAME\tJohn" = none ∧
    tokenizeLTV "0  @I1@ INDI" = some (0, "", "@I1@ INDI") ∧
    ¬ tokenizeLTV "0  @I1@ INDI" = some (0, "@I1@", "INDI") :=
  ⟨by decide, by decide, by decide⟩

/-- C3 (amended): the tokenizer splits a trimmed line on single space
characters into at most three fields, the value being the untouched
remainder; a line with fewer than two such fields or an unparseable
level is a no-op for both extraction loops, and a parseable level
other than 0, 1, 2 also has no effect. -/
theorem claim_c3_amended :
    (∀ l t v : String, ' ' ∉ l.data → ' ' ∉ t.data →
      pyStrip (l ++ " " ++ t ++ " " ++ v) = l ++ " " ++ t ++ " " ++ v →
      tokenizeLTV (l ++ " " ++ t ++ " " ++ v) =
        (pyParseInt l).map (fun n => (n, t, v))) ∧
    (∀ (st : IndState) (st2 : FamState) (line : String),
      tokenizeParts line = none → stepIndi st line = st ∧ stepFam st2 line = st2) ∧
    (∀ (st : IndState) (st2 : FamState) (line : String) (lvl : Int)
        (parts : List String),
      tokenizeParts line = some (lvl, parts) → lvl ≠ 0 → lvl ≠ 1 → lvl ≠ 2 →
      stepIndi st line = st ∧ stepFam st2 line = st2) := by
  refine ⟨?_, ?_, ?_⟩
  · intro l t v hl ht hstrip
    unfold tokenizeLTV
    rw [tokenizeParts_three hl ht hstrip]
    cases hp : pyParseInt l <;> rfl
  · intro st st2 line h
    exact ⟨stepIndi_skip h, stepFam_skip h⟩
  · intro st st2 line lvl parts h h0 h1 h2
    exact ⟨by rw [stepIndi_tok h]; exact stepIndiTok_other h0 h1 h2,
           by rw [stepFam_tok h]; exact stepFamTok_other h0 h1 h2⟩

/-- C3 witness: a single-space line splits into level 1, tag `NAME`
and the multi-word remainder as value. -/
theorem claim_c3_witness :
    tokenizeLTV ("1" ++ " " ++ "NAME" ++ " " ++ "John Smith") =
      (pyParseInt "1").map (fun n => (n, "NAME", "John Smith")) :=
  claim_c3_amended.1 "1" "NAME" "John Smith" (by decide) (by decide) (by decide)

/-- C4: after resolution, every individual's `parents` list is exactly
the concatenation, over its `families_as_child` ids in order, of the
referenced family's non-empty husband id then non-empty wife id when
the family exists, and of nothing when it does not. -/
theorem claim_c4_resolved_parents :
    ∀ (inds : StrMap Individual) (fams : StrMap Family) (k : String)
      (r : Individual),
      dictGet k (resolveRelationships inds fams) = some r →
      r.parents = r.families_as_child.flatMap (famContrib fams) := by
  intro inds fams k r h
  unfold resolveRelationships at h
  rw [dictGet_mapVals] at h
  cases hg : dictGet k inds with
  | none => rw [hg] at h; simp at h
  | some ind0 =>
    rw [hg] at h
    have h3 : resolveIndividual fams k ind0 = r := by simpa using h
    rw [← h3, resolveIndividual_parents, resolveIndividual_fac]

/-- C4 witness: child `3` of family `1` (husband `1`, wife `2`)
resolves to parents `["1", "2"]`, matching the contribution formula. -/
theorem claim_c4_witness :
    exResolved.parents = exResolved.families_as_child.flatMap (famContrib exFams) :=
  claim_c4_resolved_parents exInds exFams "3" exResolved (by decide)

/-- C5: a level-1 line whose tag is none of `BIRT`, `DEAT`, `OBJE`,
`NOTE` leaves the current-section flag unchanged; the only
section-changing lines are those four tags at level 1 and a level-0
`INDI` record start; consequently the `2 DATE b` line after
`1 FAMC @F1@` is still attributed to the open birth section. -/
theorem claim_c5_section_frame :
    (∀ (st : IndState) (line : String) (lvl : Int) (parts : List String),
      tokenizeParts line = some (lvl, parts) → lvl = 1 →
      parts.getD 1 "" ∉ (["BIRT", "DEAT", "OBJE", "NOTE"] : List String) →
      (stepIndi st line).curSection = st.curSection) ∧
    (∀ (st : IndState) (line : String) (lvl : Int) (parts : List String),
      tokenizeParts line = some (lvl, parts) →
      (stepIndi st line).curSection ≠ st.curSection →
      (lvl = 0 ∧ 3 ≤ parts.length ∧ parts.getD 2 "" = "INDI") ∨
      (lvl = 1 ∧ parts.getD 1 "" ∈ (["BIRT", "DEAT", "OBJE", "NOTE"] : List String))) ∧
    ((dictGet "1" (parseCore c5lines).individuals).map
      (fun i => i.birth.date) = some (some "b")) := by
  refine ⟨?_, ?_, ?_⟩
  · intro st line lvl parts htok hl htag
    rw [stepIndi_tok htok]
    simp only [List.mem_cons, List.mem_singleton, not_or] at htag
    obtain ⟨h1, h2, h3, h4⟩ := htag
    exact stepIndiTok_sec_L1 hl h1 h2 h3 (by simpa using h4)
  · intro st line lvl parts htok hne
    by_cases hs : lvl = 0 ∧ 3 ≤ parts.length ∧ parts.getD 2 "" = "INDI"
    · exact Or.inl hs
    · by_cases hl : lvl = 1
      · by_cases htag : parts.getD 1 "" ∈ (["BIRT", "DEAT", "OBJE", "NOTE"] : List String)
        · exact Or.inr ⟨hl, htag⟩
        · exfalso
          apply hne
          rw [stepIndi_tok htok]
          simp only [List.mem_cons, List.mem_singleton, not_or] at htag
          obtain ⟨h1, h2, h3, h4⟩ := htag
          exact stepIndiTok_sec_L1 hl h1 h2 h3 (by simpa using h4)
      · exfalso
        apply hne
        rw [stepIndi_tok htok]
        exact stepIndiTok_sec_notL1 hs hl
  · decide

/-- C5 witness: processing `1 FAMC @F1@` leaves the section flag of
the initial state unchanged. -/
theorem claim_c5_witness :
    (stepIndi initIndState "1 FAMC @F1@").curSection = initIndState.curSection :=
  claim_c5_section_frame.1 initIndState "1 FAMC @F1@" 1 ["1", "FAMC", "@F1@"]
    (by decide) rfl (by decide)

/-- C6: a failed file read degrades to parsing zero lines (empty maps,
zero totals, no `error` key), and any exception escaping the pipeline
is converted by the top-level handler into the fallback output whose
summary carries the `error` string; `parse` never lets either
propagate. -/
theorem claim_c6_no_propagation :
    (∀ e : String, parse (Except.error e) =
      { individuals := [], families := [],
        summary := { total_individuals := 0, total_families := 0,
                     error := none } }) ∧
    (∀ e : String, parseTop (Except.error e) =
      { individuals := [], families := [],
        summary := { total_individuals := 0, total_families := 0,
                     error := some e } }) :=
  ⟨fun _ => rfl, fun _ => rfl⟩

/-- C7: `get_statistics().living_people` equals the number of map
entries whose death record has no date key or an empty date. -/
theorem claim_c7_living_count :
    ∀ (inds : StrMap Individual) (fams : StrMap Family),
      (getStatistics inds fams).living_people =
        (inds.filter (fun kv =>
          decide (kv.2.death.date = none ∨ kv.2.death.date = some ""))).length := by
  intro inds fams
  unfold getStatistics
  rw [foldl_statStep_living]
  have h0 : (initStats inds fams).living_people = 0 := rfl
  rw [h0]
  simp only [pyFalsy_eq_decide, List.countP_eq_length_filter, Nat.zero_add]

/-- C8: an identifier token made only of `@` and `I` (resp. `@` and
`F`) strips to the empty id; the empty key never appears in either map
produced by `parse`; and while the open record's id is empty, every
level-1 or level-2 line leaves the loop state entirely unchanged. -/
theorem claim_c8_empty_ids :
    (∀ tok : String, (∀ c ∈ tok.data, c = '@' ∨ c = 'I') →
      stripIndiId tok = "") ∧
    (∀ tok : String, (∀ c ∈ tok.data, c = '@' ∨ c = 'F') →
      stripFamId tok = "") ∧
    (∀ lines : List String,
      dictGet "" (parseCore lines).individuals = none ∧
      dictGet "" (parseCore lines).families = none) ∧
    (∀ (st : IndState) (line : String) (lvl : Int) (parts : List String),
      st.curId = some "" → tokenizeParts line = some (lvl, parts) →
      (lvl = 1 ∨ lvl = 2) → stepIndi st line = st) ∧
    (∀ (st : FamState) (line : String) (lvl : Int) (parts : List String),
      st.curId = some "" → tokenizeParts line = some (lvl, parts) →
      (lvl = 1 ∨ lvl = 2) → stepFam st line = st) := by
  refine ⟨?_, ?_, ?_, ?_, ?_⟩
  · intro tok h
    have hmid : (tok.data.filter (fun d => d ≠ '@')).filter
        (fun d => d ≠ 'I') = [] := by
      rw [List.filter_eq_nil_iff]
      intro a ha
      have hmem := List.mem_filter.1 ha
      rcases h a hmem.1 with h1 | h1
      · simp [h1] at hmem
      · simp [h1]
    show String.mk (((tok.data.filter (fun d => d ≠ '@')).filter
      (fun d => d ≠ 'I')).filter (fun d => d ≠ '@')) = ""
    rw [hmid]
    rfl
  · intro tok h
    have hmid : (tok.data.filter (fun d => d ≠ '@')).filter
        (fun d => d ≠ 'F') = [] := by
      rw [List.filter_eq_nil_iff]
      intro a ha
      have hmem := List.mem_filter.1 ha
      rcases h a hmem.1 with h1 | h1
      · simp [h1] at hmem
      · simp [h1]
    show String.mk (((tok.data.filter (fun d => d ≠ '@')).filter
      (fun d => d ≠ 'F')).filter (fun d => d ≠ '@')) = ""
    rw [hmid]
    rfl
  · intro lines
    constructor
    · have hn : noEmptyIndInv (lines.foldl stepIndi initIndState) :=
        foldlInv stepIndi_noEmpty lines _ (by simp [initIndState, noEmptyIndInv, dictGet])
      have hc : dictGet "" (extractIndividuals lines) = none :=
        commitInd_noEmpty hn
      show dictGet "" (resolveRelationships (extractIndividuals lines)
        (extractFamilies lines)) = none
      unfold resolveRelationships
      rw [dictGet_mapVals, hc]
      rfl
    · have hn : noEmptyFamInv (lines.foldl stepFam initFamState) :=
        foldlInv stepFam_noEmpty lines _ (by simp [initFamState, noEmptyFamInv, dictGet])
      exact commitFam_noEmpty hn
  · intro st line lvl parts hc htok hl
    rw [stepIndi_tok htok]
    refine stepIndiTok_emptyCur hc ?_
    rcases hl with h | h <;> rw [h] <;> decide
  · intro st line lvl parts hc htok hl
    rw [stepFam_tok htok]
    refine stepFamTok_emptyCur hc ?_
    rcases hl with h | h <;> rw [h] <;> decide

/-- C8 witness: `@I@` strips to the empty id, and a level-1 line under
an empty-id record leaves the state untouched. -/
theorem claim_c8_witness :
    stripIndiId "@I@" = "" ∧
    stepIndi ⟨[], some "", some (freshInd ""), none⟩ "1 NAME X" =
      ⟨[], some "", some (freshInd ""), none⟩ :=
  ⟨claim_c8_empty_ids.1 "@I@" (by decide),
   claim_c8_empty_ids.2.2.2.1 _ "1 NAME X" 1 ["1", "NAME", "X"] rfl
     (by decide) (Or.inl rfl)⟩

/-- C9: in the structure returned by `parse`, every individual and
family record stores the map key in its `id` field, and the resolver
preserves this. -/
theorem claim_c9_id_matches_key :
    ∀ (lines : List String) (k : String),
      (∀ r, dictGet k (parseCore lines).individuals = some r → r.id = k) ∧
      (∀ f, dictGet k (parseCore lines).families = some f → f.id = k) := by
  intro lines k
  constructor
  · intro r h
    have h2 : dictGet k (resolveRelationships (extractIndividuals lines)
        (extractFamilies lines)) = some r := h
    unfold resolveRelationships at h2
    rw [dictGet_mapVals] at h2
    cases hg : dictGet k (extractIndividuals lines) with
    | none => rw [hg] at h2; simp at h2
    | some ind0 =>
      rw [hg] at h2
      have h3 : resolveIndividual (extractFamilies lines) k ind0 = r := by
        simpa using h2
      rw [← h3, resolveIndividual_id_stable]
      exact extractIndividuals_id lines k ind0 hg
  · intro f h
    exact extractFamilies_id lines k f h

/-- C9 witness: the record stored under key `1` for `0 @I1@ INDI` has
id `1`. -/
theorem claim_c9_witness : (freshInd "1").id = "1" :=
  (claim_c9_id_matches_key ["0 @I1@ INDI"] "1").1 (freshInd "1") (by decide)

/-- C10: both search operations are antitone in query refinement
(lower-cased substring order), and the empty query returns every
individual in map insertion order. -/
theorem claim_c10_query_antitone :
    (∀ (inds : StrMap Individual) (q1 q2 : String),
      pyInB (pyLower q1) (pyLower q2) = true →
      ∀ p, p ∈ findPerson inds q2 → p ∈ findPerson inds q1) ∧
    (∀ (inds : StrMap Individual) (q1 q2 : String),
      pyInB (pyLower q1) (pyLower q2) = true →
      ∀ p, p ∈ searchByLocation inds q2 → p ∈ searchByLocation inds q1) ∧
    (∀ inds : StrMap Individual,
      findPerson inds "" = inds.map Prod.snd ∧
      searchByLocation inds "" = inds.map Prod.snd) := by
  refine ⟨?_, ?_, ?_⟩
  · intro inds q1 q2 hq p hp
    unfold findPerson at hp ⊢
    obtain ⟨kv, hkv, hpe⟩ := List.mem_map.1 hp
    have hm := List.mem_filter.1 hkv
    exact List.mem_map.2 ⟨kv, List.mem_filter.2 ⟨hm.1, pyInB_trans hq hm.2⟩, hpe⟩
  · intro inds q1 q2 hq p hp
    unfold searchByLocation at hp ⊢
    obtain ⟨kv, hkv, hpe⟩ := List.mem_map.1 hp
    have hm := List.mem_filter.1 hkv
    refine List.mem_map.2 ⟨kv, List.mem_filter.2 ⟨hm.1, ?_⟩, hpe⟩
    have h2 := hm.2
    rw [Bool.or_eq_true] at h2 ⊢
    rcases h2 with h2 | h2
    · exact Or.inl (pyInB_trans hq h2)
    · exact Or.inr (pyInB_trans hq h2)
  · intro inds
    constructor
    · unfold findPerson
      rw [List.filter_eq_self.mpr
        (fun kv _ => by
          rw [show pyLower "" = "" from rfl]
          exact pyInB_empty _)]
    · unfold searchByLocation
      rw [List.filter_eq_self.mpr
        (fun kv _ => by
          rw [show pyLower "" = "" from rfl]
          simp [pyInB_empty])]

/-- C10 witness: refining the query `smit` to `SMITH` keeps John SMITH
in the result, hence he is already returned for `smit`. -/
theorem claim_c10_witness : johnSmith ∈ findPerson searchInds "smit" :=
  claim_c10_query_antitone.1 searchInds "smit" "SMITH" (by decide)
    johnSmith (by decide)

end Gedcom
